import Mathlib

/-!
Formal model of the `piano-ts` repository's `PianoConverter` pipeline
(`src/PianoConverter.ts`): MIDI event streams are rebased to milliseconds,
note-on/note-off pairs are resolved into `note` events, tracks are merged,
durations are quantized and reduced to chords, and the result is rendered
as text.  Times and tempo values are modelled as rationals (the source uses
JS numbers); `Math.round` is `round` (both round half toward positive
infinity).  JS runtime failures (property access on `undefined`) are
modelled by `Option`, with `none` standing for a thrown `TypeError`.
-/

namespace PianoTs

/-- Delta-time events of an `Opus` track (the `midi-file` event model
restricted to the fields the converter reads).  Any event type other than
`noteOn`/`noteOff`/`setTempo` is collapsed into `other`, since the code
only forwards such events unchanged. -/
inductive OpusEvent where
  | noteOn (deltaTime : ℚ) (channel : Nat) (noteNumber : Nat) (velocity : Nat)
  | noteOff (deltaTime : ℚ) (channel : Nat) (noteNumber : Nat) (velocity : Nat)
  | setTempo (deltaTime : ℚ) (microsecondsPerBeat : ℚ)
  | other (deltaTime : ℚ)
deriving DecidableEq, Repr

def OpusEvent.deltaTime : OpusEvent → ℚ
  | .noteOn d _ _ _ => d
  | .noteOff d _ _ _ => d
  | .setTempo d _ => d
  | .other d => d

/-- `newEvent.deltaTime = ...` on a structured clone of the event. -/
def OpusEvent.withDelta : OpusEvent → ℚ → OpusEvent
  | .noteOn _ c n v, d => .noteOn d c n v
  | .noteOff _ c n v, d => .noteOff d c n v
  | .setTempo _ m, d => .setTempo d m
  | .other _, d => .other d

def OpusEvent.isSetTempo : OpusEvent → Bool
  | .setTempo _ _ => true
  | _ => false

structure Opus where
  tpq : ℚ
  tracks : List (List OpusEvent)
deriving DecidableEq, Repr

/-- Events of a `Score` track: the paired `note` variant plus the
non-note events that `opus2score` stamps with their absolute position. -/
inductive ScoreEvent where
  | note (begin : ℚ) (deltaTime : ℚ) (channel : Nat) (noteNumber : Nat) (velocity : Nat)
  | setTempo (begin : ℚ) (deltaTime : ℚ) (microsecondsPerBeat : ℚ)
  | other (begin : ℚ) (deltaTime : ℚ)
deriving DecidableEq, Repr

def ScoreEvent.begin : ScoreEvent → ℚ
  | .note b _ _ _ _ => b
  | .setTempo b _ _ => b
  | .other b _ => b

def ScoreEvent.withDelta : ScoreEvent → ℚ → ScoreEvent
  | .note b _ c n v, d => .note b d c n v
  | .setTempo b _ m, d => .setTempo b d m
  | .other b _, d => .other b d

/-- The `condition` helper: `event.type === "note"`. -/
def ScoreEvent.isNote : ScoreEvent → Bool
  | .note _ _ _ _ _ => true
  | _ => false

structure Score where
  tpq : ℚ
  tracks : List (List ScoreEvent)
deriving DecidableEq, Repr

/-! ### Time Rebaser (`toMs`) -/

/-- The mutable locals of `toMs`: `millisecPerOldTick`, `millisecSoFar`,
`previousMillisecSoFar`.  `millisecPerOldTick` is declared outside the
track loop, so its value carries over from one track to the next; the
other two are reset per track. -/
structure MsState where
  msPerTick : ℚ
  msSoFar : ℚ
  prevMs : ℚ
deriving DecidableEq, Repr

/-- One iteration of the `toMs` event loop: accumulate milliseconds, then
either consume a tempo change (updating the rate, emitting nothing) or
emit the event with the rounded millisecond delta. -/
def toMsStep (tpq : ℚ) (s : MsState) (e : OpusEvent) : MsState × Option OpusEvent :=
  let ms := s.msSoFar + s.msPerTick * e.deltaTime
  match e with
  | .setTempo _ mpb => (⟨mpb / (1000 * tpq), ms, s.prevMs⟩, none)
  | _ => (⟨s.msPerTick, ms, ms⟩, some (e.withDelta ((round (ms - s.prevMs) : ℤ) : ℚ)))

def toMsGo (tpq : ℚ) (s : MsState) : List OpusEvent → List OpusEvent × MsState
  | [] => ([], s)
  | e :: rest =>
    let p := toMsStep tpq s e
    let r := toMsGo tpq p.1 rest
    (match p.2 with
     | none => r.1
     | some e' => e' :: r.1, r.2)

/-- The track loop of `toMs`: each output track starts with the synthetic
tempo reset `{type: "setTempo", deltaTime: 0, microsecondsPerBeat: 1000000}`,
and the tick rate survives from track to track. -/
def toMsTracks (tpq : ℚ) (msPerTick : ℚ) : List (List OpusEvent) → List (List OpusEvent)
  | [] => []
  | tr :: rest =>
    let p := toMsGo tpq ⟨msPerTick, 0, 0⟩ tr
    (OpusEvent.setTempo 0 1000000 :: p.1) :: toMsTracks tpq p.2.msPerTick rest

def toMs (oldOpus : Opus) : Opus :=
  ⟨1000, toMsTracks oldOpus.tpq (1000 / ((round oldOpus.tpq : ℤ) : ℚ)) oldOpus.tracks⟩

/-! ### Note Pairer (`opus2score`) -/

/-- The per-track pairing state: `ticksSoFar`, the
`channelPitchToNoteOnEvents` record (an association list keyed by
`channel * 128 + pitch`, in key-creation order), and the emitted
`scoreTrack`. -/
structure PairState where
  ticksSoFar : ℚ
  pending : List (Nat × List ScoreEvent)
  out : List ScoreEvent
deriving DecidableEq, Repr

/-- Record lookup `channelPitchToNoteOnEvents[key]` (`none` = the key was
never created, i.e. the JS value is `undefined`). -/
def getQ : List (Nat × List ScoreEvent) → Nat → Option (List ScoreEvent)
  | [], _ => none
  | p :: rest, k => if p.1 = k then some p.2 else getQ rest k

/-- Record update `channelPitchToNoteOnEvents[key] = v` for an existing key. -/
def setQ : List (Nat × List ScoreEvent) → Nat → List ScoreEvent → List (Nat × List ScoreEvent)
  | [], _, _ => []
  | p :: rest, k, v => if p.1 = k then (p.1, v) :: setQ rest k v else p :: setQ rest k v

/-- The note-off branch: `if (channelPitchToNoteOnEvents[key])` is truthy
for any created key (even with an exhausted, empty queue — JS `[]` is
truthy); `shift()` on an empty queue returns `undefined` and the
subsequent `newEvent.deltaTime` assignment throws, modelled as `none`. -/
def closeKey (s : PairState) (t : ℚ) (k : Nat) : Option PairState :=
  match getQ s.pending k with
  | none => some { s with ticksSoFar := t }
  | some [] => none
  | some (ev :: rest) =>
    some ⟨t, setQ s.pending k rest, s.out ++ [ev.withDelta (t - ev.begin)]⟩

def keyOf (channel pitch : Nat) : Nat := channel * 128 + pitch

/-- One iteration of the `opus2score` event loop. -/
def pairStep (s : PairState) (e : OpusEvent) : Option PairState :=
  let t := s.ticksSoFar + e.deltaTime
  match e with
  | .noteOff _ cha pitch _ => closeKey s t (keyOf cha pitch)
  | .noteOn _ cha pitch vel =>
    if vel = 0 then closeKey s t (keyOf cha pitch)
    else
      let ev : ScoreEvent := .note t 0 cha pitch vel
      let k := keyOf cha pitch
      some ⟨t,
        (match getQ s.pending k with
         | some q => setQ s.pending k (q ++ [ev])
         | none => s.pending ++ [(k, [ev])]),
        s.out⟩
  | .setTempo d mpb => some { s with ticksSoFar := t, out := s.out ++ [.setTempo t d mpb] }
  | .other d => some { s with ticksSoFar := t, out := s.out ++ [.other t d] }

def pairRun (s : PairState) : List OpusEvent → Option PairState
  | [] => some s
  | e :: rest =>
    match pairStep s e with
    | none => none
    | some s' => pairRun s' rest

def initPairState : PairState := ⟨0, [], []⟩

/-- Ascending insertion used to model JS `for...in` order over
integer-like record keys (ascending numeric order). -/
def insertKey (k : Nat) : List Nat → List Nat
  | [] => [k]
  | a :: t => if k ≤ a then k :: a :: t else a :: insertKey k t

def sortKeys (l : List Nat) : List Nat := l.foldr insertKey []

/-- The unterminated-note loop: every still-pending note is finalized
with `deltaTime = ticksSoFar - begin` and appended to the track. -/
def flushPending (s : PairState) : List ScoreEvent :=
  (sortKeys (s.pending.map Prod.fst)).flatMap
    (fun k => ((getQ s.pending k).getD []).map
      (fun ev => ev.withDelta (s.ticksSoFar - ev.begin)))

def opus2scoreTrack (track : List OpusEvent) : Option (List ScoreEvent) :=
  match pairRun initPairState track with
  | none => none
  | some s => some (s.out ++ flushPending s)

def opus2scoreTracks : List (List OpusEvent) → Option (List (List ScoreEvent))
  | [] => some []
  | t :: ts =>
    match opus2scoreTrack t, opus2scoreTracks ts with
    | some t', some ts' => some (t' :: ts')
    | _, _ => none

def opus2score (opus : Opus) : Option Score :=
  if opus.tracks.length < 2 then some ⟨1000, []⟩
  else
    match opus2scoreTracks opus.tracks with
    | none => none
    | some ts => some ⟨opus.tpq, ts⟩

/-! ### Configuration (`PianoConverter` constructor fields) -/

structure PianoConverter where
  lineLengthLim : Nat
  linesLimit : Nat
  tickLag : ℚ
  octaveTranspose : Int
  floatPrecision : Nat
  octaveKeys : Nat
  highestOctave : Nat
  endOfLineChar : String
deriving DecidableEq, Repr

/-- `timeQuanta`, kept equal to `100 * tickLag` by the constructor and
`updateTimeQuanta`. -/
def timeQuanta (c : PianoConverter) : ℚ := 100 * c.tickLag

/-- `overallImportLimit`, kept equal to `2 * lineLengthLim * linesLimit`. -/
def overallImportLimit (c : PianoConverter) : Nat := 2 * c.lineLengthLim * c.linesLimit

/-- The constructor defaults. -/
def defaultConverter : PianoConverter :=
  ⟨50, 200, 1/2, 0, 2, 12, 8, "\n"⟩

/-! ### MIDI ingestion (`midi2opus`, `midi2scoreNoTick`) -/

/-- The header fields `midi2opus` reads; `none` models a JS `undefined`
field. -/
structure MidiHeader where
  ticksPerFrame : Option ℚ
  ticksPerBeat : Option ℚ
deriving DecidableEq, Repr

structure MidiData where
  header : MidiHeader
  tracks : List (List OpusEvent)
deriving DecidableEq, Repr

/-- `header.ticksPerFrame ? ticksPerFrame * ticksPerBeat : (ticksPerBeat ?
ticksPerBeat : 160)` with JS truthiness (`undefined` and `0` are falsy). -/
def tpqOf (h : MidiHeader) : ℚ :=
  if h.ticksPerFrame.getD 0 ≠ 0 then h.ticksPerFrame.getD 0 * h.ticksPerBeat.getD 0
  else if h.ticksPerBeat.getD 0 ≠ 0 then h.ticksPerBeat.getD 0
  else 160

/-- `midi2opus`: the event loop copies each event unchanged, so the tracks
carry over as-is. -/
def midi2opus (header : MidiHeader) (tracks : List (List OpusEvent)) : Opus :=
  ⟨tpqOf header, tracks⟩

def midi2scoreNoTick (header : MidiHeader) (tracks : List (List OpusEvent)) : Option Score :=
  opus2score (toMs (midi2opus header tracks))

/-! ### Track filtering, merging and sorting -/

def filterEventsFromScore (score : Score) : Score :=
  ⟨score.tpq, score.tracks.map (fun track => track.filter ScoreEvent.isNote)⟩

def filterEmptyTracks (score : Score) : Score :=
  ⟨score.tpq, score.tracks.filter (fun t => t.length > 0)⟩

def mergeEvents (score : Score) : Score :=
  ⟨score.tpq, [score.tracks.foldl (· ++ ·) []]⟩

/-- Stable insertion used to model the stable JS `Array.prototype.sort`
with comparator `a.begin - b.begin`. -/
def insertByBegin (e : ScoreEvent) : List ScoreEvent → List ScoreEvent
  | [] => [e]
  | a :: t => if e.begin ≤ a.begin then e :: a :: t else a :: insertByBegin e t

def sortScoreByEventTimes (score : Score) : Score :=
  ⟨score.tpq, score.tracks.map (fun track => track.foldr insertByBegin [])⟩

/-! ### Quantizer (`convertIntoSecondsPerTicks`, `performRoundation`,
`obtainCommonDuration`) -/

/-- An event after `convertIntoSecondsPerTicks`, reduced to the fields the
rest of the pipeline reads.  A `none` component models a JS `undefined`
field: an empty input track makes the code spread `track[-1]`
(`undefined`) into `{deltaTime: 1000}`, an event with no position and no
pitch. -/
structure CEvent where
  beginPos : Option ℚ
  deltaTime : ℚ
  noteNumber : Option Nat
deriving DecidableEq, Repr

def ScoreEvent.pitch? : ScoreEvent → Option Nat
  | .note _ _ _ n _ => some n
  | _ => none

/-- The pairing loop of `convertIntoSecondsPerTicks`: each event's new
delta is the next event's `begin` minus its own, and the last event gets
the fixed terminal duration 1000. -/
def convPairs : List ScoreEvent → List CEvent
  | [] => []
  | [e] => [⟨some e.begin, 1000, e.pitch?⟩]
  | e :: next :: rest =>
    ⟨some e.begin, next.begin - e.begin, e.pitch?⟩ :: convPairs (next :: rest)

def convertIntoTrack (track : List ScoreEvent) : List CEvent :=
  match track with
  | [] => [⟨none, 1000, none⟩]
  | _ => convPairs track

structure CScore where
  tpq : ℚ
  tracks : List (List CEvent)
deriving DecidableEq, Repr

def convertIntoSecondsPerTicks (score : Score) : CScore :=
  ⟨score.tpq, score.tracks.map convertIntoTrack⟩

/-- `performRoundation` reads `score.tracks[0]`; with no tracks that is
`undefined` and `.map` throws, modelled as `none`. -/
def performRoundation (c : PianoConverter) (score : CScore) : Option (List (ℚ × Option Nat)) :=
  match score.tracks with
  | [] => none
  | t :: _ =>
    some (t.map (fun e => (((round (e.deltaTime / timeQuanta c) : ℤ) : ℚ) * timeQuanta c,
                           e.noteNumber)))

/-- Occurrence count used by `obtainCommonDuration`
(`durations.filter((d) => d === dur).length`). -/
def cnt (l : List ℚ) (d : ℚ) : Nat := (l.filter (fun x => x = d)).length

/-- `new Set(...)` insertion: values already seen are skipped. -/
def uniqueFirstAux (seen : List ℚ) : List ℚ → List ℚ
  | [] => []
  | a :: t => if a ∈ seen then uniqueFirstAux seen t else a :: uniqueFirstAux (a :: seen) t

/-- `Array.from(new Set(durations))`: distinct values in order of first
appearance (JS `Set` preserves insertion order). -/
def uniqueFirst (l : List ℚ) : List ℚ := uniqueFirstAux [] l

/-- `Array.prototype.indexOf` (first index of the value; `none` for the
JS result `-1`). -/
def idxOf (v : Nat) : List Nat → Option Nat
  | [] => none
  | a :: t => if a = v then some 0 else (idxOf v t).map (· + 1)

/-- `uniqueDurations[durationsCount.indexOf(Math.max(...durationsCount))]`:
the unique value whose count is the first occurrence of the maximal count
(`none` models the `undefined` of an empty count list, where `Math.max()`
is `-Infinity` and `indexOf` is `-1`). -/
def pickDominant (uniq : List ℚ) (counts : List Nat) : Option ℚ :=
  match counts with
  | [] => none
  | c0 :: cs =>
    match idxOf (cs.foldl max c0) (c0 :: cs) with
    | none => none
    | some i => uniq.get? i

/-- `obtainCommonDuration`: the most frequent nonzero duration. -/
def obtainCommonDuration (score : List (ℚ × Option Nat)) : Option ℚ :=
  let durations := (score.map Prod.fst).filter (fun d => ¬ d = 0)
  let uniq := uniqueFirst durations
  pickDominant uniq (uniq.map (fun d => cnt durations d))

/-! ### Chord Reducer (`reduceScoreToChords`) -/

/-- The fold of `reduceScoreToChords`; the first argument is the chord
being accumulated (`newChord[0]`).  A trailing chord that never reaches a
nonzero duration is discarded, exactly as in the source. -/
def reduceGo (chord : List (Option Nat)) : List (ℚ × Option Nat) → List (List (Option Nat) × ℚ)
  | [] => []
  | (d, p) :: rest =>
    let chord' := chord ++ [p]
    if d = 0 then reduceGo chord' rest
    else (chord', d) :: reduceGo [] rest

def reduceScoreToChords (score : List (ℚ × Option Nat)) : List (List (Option Nat) × ℚ) :=
  reduceGo [] score

/-! ### Notation Renderer (`notenum2string`, `durToMod`,
`obtainSheetMusic`) -/

def names : List String :=
  ["C", "C#", "D", "D#", "E", "F"] ++ ["F#", "G", "G#", "A", "A#", "B"]

/-- `{ 1: 0, 3: 1, 6: 2, 8: 3, 10: 4 }` -/
def convertTable (k : Nat) : Option Nat :=
  if k = 1 then some 0 else if k = 3 then some 1 else if k = 6 then some 2
  else if k = 8 then some 3 else if k = 10 then some 4 else none

/-- `{ 0: 0, 2: 1, 5: 2, 7: 3, 9: 4 }` -/
def inclusionTable (k : Nat) : Option Nat :=
  if k = 0 then some 0 else if k = 2 then some 1 else if k = 5 then some 2
  else if k = 7 then some 3 else if k = 9 then some 4 else none

/-- `{ 0: 1, 1: 0, 2: 3, 3: 2, 5: 6, 6: 5, 7: 8, 8: 7, 9: 10, 10: 9 }` -/
def correspondenceTable (k : Nat) : Option Nat :=
  if k = 0 then some 1 else if k = 1 then some 0 else if k = 2 then some 3
  else if k = 3 then some 2 else if k = 5 then some 6 else if k = 6 then some 5
  else if k = 7 then some 8 else if k = 8 then some 7 else if k = 9 then some 10
  else if k = 10 then some 9 else none

def digitToChar (n : Nat) : Char :=
  if n = 0 then '0' else if n = 1 then '1' else if n = 2 then '2'
  else if n = 3 then '3' else if n = 4 then '4' else if n = 5 then '5'
  else if n = 6 then '6' else if n = 7 then '7' else if n = 8 then '8'
  else if n = 9 then '9' else '*'

/-- Decimal digits of a natural number. -/
def natToChars (n : Nat) : List Char :=
  if _ : n < 10 then [digitToChar n]
  else natToChars (n / 10) ++ [digitToChar (n % 10)]
decreasing_by exact Nat.div_lt_self (by omega) (by omega)

def natToString (n : Nat) : String := ⟨natToChars n⟩

/-- JS number-to-string for the integers this pipeline prints. -/
def intToString (n : Int) : String :=
  if n < 0 then "-" ++ natToString n.natAbs else natToString n.natAbs

/-- `notenum2string`.  `Math.floor(num / octaveKeys)` is `Int.fdiv`; once
the octave range check has passed, `num` is nonnegative so JS `%` agrees
with `Int.emod`.  A name-table miss (`names[nameIndex]` out of range,
possible only for `octaveKeys > 12`, or a `NaN` index from an `undefined`
pitch) makes `.length` throw, modelled as `none`. -/
def notenum2string (c : PianoConverter) (num0 : Int) (accidentals : List Bool)
    (octaves : List Int) : Option (String × List Bool × List Int) :=
  let num := num0 + (c.octaveKeys : Int) * c.octaveTranspose
  let octave := Int.fdiv num c.octaveKeys
  if octave < 1 ∨ octave > (c.highestOctave : Int) then
    some ("", accidentals, octaves)
  else
    let nameIndex := (num % (c.octaveKeys : Int)).toNat
    match names.get? nameIndex with
    | none => none
    | some name =>
      let outputOctaves :=
        match correspondenceTable nameIndex with
        | some j => (octaves.set nameIndex octave).set j octave
        | none => octaves.set nameIndex octave
      let accidental := name.length = 2
      let addN := if accidental then false
                  else match inclusionTable nameIndex with
                       | some j => accidentals.getD j false
                       | none => false
      let outputAccidentals :=
        if accidental then
          match convertTable nameIndex with
          | some j => accidentals.set j true
          | none => accidentals
        else
          match inclusionTable nameIndex with
          | some j => accidentals.set j false
          | none => accidentals
      some (name ++ (if addN then "n" else "")
                 ++ (if octave ≠ octaves.getD nameIndex 0 then intToString octave else ""),
            outputAccidentals, outputOctaves)

/-- `Number.prototype.toFixed(p)`: the integer `n` with `n / 10^p` closest
to `x`, ties toward the larger `n` (that is `round`), printed with exactly
`p` decimals. -/
def toFixedStr (p : Nat) (x : ℚ) : String :=
  let n : Int := round (x * (10 : ℚ) ^ p)
  if p = 0 then intToString n
  else
    let a := n.natAbs
    let intPart := a / 10 ^ p
    let frac := a % 10 ^ p
    let fs := natToString frac
    (if n < 0 then "-" else "") ++ natToString intPart ++ "."
      ++ String.mk (List.replicate (p - fs.length) '0') ++ fs

/-- `/0+$/` : strip the maximal run of trailing `'0'` characters. -/
def stripTrailingZeros (s : String) : String :=
  String.mk (s.data.reverse.dropWhile (fun ch => ch = '0')).reverse

/-- `/\.$/` : strip one trailing `'.'`. -/
def stripTrailingDot (s : String) : String :=
  match s.data.reverse with
  | '.' :: rest => String.mk rest.reverse
  | _ => s

/-- `durToMod(dur, bpm_mod)`.  `bpm_mod` is `undefined` (`none`) when no
dominant duration exists; then `mod` is `NaN` and `toFixed` prints
`"NaN"`.  A zero `dur` gives an infinite `mod`. -/
def durToMod (c : PianoConverter) (dur : ℚ) (bpmMod : Option ℚ) : String :=
  match bpmMod with
  | none => "NaN"
  | some m =>
    if dur = 0 then
      if m = 0 then "NaN" else if m > 0 then "Infinity" else "-Infinity"
    else stripTrailingDot (stripTrailingZeros (toFixedStr c.floatPrecision (m / dur)))

/-- The inner loop of `obtainSheetMusic` over one chord's pitches, with
`"-"` separators between them.  A `none` pitch (`undefined`) crashes in
`notenum2string`. -/
def renderPitches (c : PianoConverter) :
    List (Option Nat) → List Bool → List Int → Option (String × List Bool × List Int)
  | [], acc, oct => some ("", acc, oct)
  | p? :: rest, acc, oct =>
    match p? with
    | none => none
    | some n =>
      match notenum2string c (n : Int) acc oct with
      | none => none
      | some (s, acc', oct') =>
        match rest with
        | [] => some (s, acc', oct')
        | _ =>
          match renderPitches c rest acc' oct' with
          | none => none
          | some (s', acc'', oct'') => some (s ++ "-" ++ s', acc'', oct'')

def sheetGo (c : PianoConverter) (mostFrequentDur : Option ℚ) :
    List (List (Option Nat) × ℚ) → List Bool → List Int → Option String
  | [], _, _ => some ""
  | (ps, dur) :: rest, acc, oct =>
    match renderPitches c ps acc oct with
    | none => none
    | some (s, acc', oct') =>
      let s := s ++ (if mostFrequentDur = some dur then ""
                     else "/" ++ durToMod c dur mostFrequentDur) ++ ","
      match sheetGo c mostFrequentDur rest acc' oct' with
      | none => none
      | some s' => some (s ++ s')

/-- `obtainSheetMusic`: octaves start at `Array(12).fill(3)`, accidentals
at `Array(7).fill(false)`. -/
def obtainSheetMusic (c : PianoConverter) (score : List (List (Option Nat) × ℚ))
    (mostFrequentDur : Option ℚ) : Option String :=
  sheetGo c mostFrequentDur score (List.replicate 7 false) (List.replicate 12 3)

/-! ### Line Formatter (`explodeSheetMusic`, `finalizeSheetMusic`) -/

/-- `rstrip(',', s)` = `replace(/,$/, '')`: drop one trailing comma. -/
def rstripComma (s : String) : String :=
  match s.data.reverse with
  | ',' :: rest => String.mk rest.reverse
  | _ => s

/-- `splitList[splitList.length - 1] = f(...)`; on an empty list the JS
code reads `splitList[-1]` (`undefined`) and `rstrip`'s `replace` throws. -/
def modifyLast (f : String → String) : List String → Option (List String)
  | [] => none
  | [a] => some [f a]
  | a :: b :: rest => (modifyLast f (b :: rest)).map (a :: ·)

/-- The token loop of `explodeSheetMusic`.  The two limit comparisons are
done over `Int` because `linesLimit - 1` and `lineLengthLim - 2` may be
negative in JS. -/
def explodeGo (c : PianoConverter) :
    List String → List String → Nat → Nat → Option (List String)
  | [], splitList, _, _ => some splitList
  | note :: rest, splitList, counter, lineCounter =>
    if (lineCounter : Int) > (c.linesLimit : Int) - 1 then some splitList
    else
      let wrap : Bool := (counter : Int) + note.length > (c.lineLengthLim : Int) - 2
      let afterWrap : Option (List String × Nat × Nat) :=
        if wrap then
          match modifyLast (fun s => rstripComma s ++ c.endOfLineChar) splitList with
          | none => none
          | some sl => some (sl, 0, lineCounter + 1)
        else some (splitList, counter, lineCounter)
      match afterWrap with
      | none => none
      | some (sl, cnt0, lc) =>
        explodeGo c rest (sl ++ [note ++ ","]) (cnt0 + note.length) lc

/-- JS `String.prototype.split(',')` over the character list. -/
def splitCommaChars : List Char → List String
  | [] => [""]
  | ch :: rest =>
    let r := splitCommaChars rest
    if ch = ',' then "" :: r
    else
      match r with
      | [] => [String.mk [ch]]
      | s :: tail => String.mk (ch :: s.data) :: tail

def explodeSheetMusic (c : PianoConverter) (sheetMusic : String) : Option (List String) :=
  explodeGo c (splitCommaChars sheetMusic.data) [] 0 1

/-- `"BPM: " + Math.floor(60000 / mostFrequentDur)`: an `undefined`
dominant duration prints `NaN`, a zero one prints `Infinity`. -/
def bpmString (mostFrequentDur : Option ℚ) : String :=
  match mostFrequentDur with
  | none => "NaN"
  | some m => if m = 0 then "Infinity" else intToString (Int.floor (60000 / m))

/-- `substring(0, min(length, limit))` over the character list. -/
def takeChars (n : Nat) : List Char → List Char
  | [] => []
  | ch :: rest => if n = 0 then [] else ch :: takeChars (n - 1) rest

/-- JS `String.prototype.trim()`: strip whitespace from both ends. -/
def trimString (s : String) : String :=
  String.mk (((s.data.dropWhile Char.isWhitespace).reverse.dropWhile
    Char.isWhitespace).reverse)

def finalizeSheetMusic (c : PianoConverter) (splitMusic : List String)
    (mostFrequentDur : Option ℚ) : String :=
  let sheet := String.join splitMusic
  let s := "BPM: " ++ bpmString mostFrequentDur ++ c.endOfLineChar ++ sheet
  let s := rstripComma (rstripComma (trimString s))
  String.mk (takeChars (overallImportLimit c) s.data)

/-! ### The full conversion (`toPiano`) -/

def toPiano (c : PianoConverter) (midi : MidiData) : Option String :=
  match midi2scoreNoTick midi.header midi.tracks with
  | none => none
  | some score =>
    let score := filterEventsFromScore score
    let filteredScore := filterEmptyTracks score
    let score := mergeEvents filteredScore
    let score := sortScoreByEventTimes score
    let cscore := convertIntoSecondsPerTicks score
    match performRoundation c cscore with
    | none => none
    | some roundedScore =>
      let mostFrequentDur := obtainCommonDuration roundedScore
      let reducedScore := reduceScoreToChords roundedScore
      match obtainSheetMusic c reducedScore mostFrequentDur with
      | none => none
      | some sheetMusic =>
        match explodeSheetMusic c sheetMusic with
        | none => none
        | some splitMusic => some (finalizeSheetMusic c splitMusic mostFrequentDur)

/-! ### Derived observations of the pipeline, and concrete inputs used in
the theorems below -/

/-- The quantized `(duration, pitch)` stream a given input produces. -/
def roundedScoreOf (c : PianoConverter) (midi : MidiData) : Option (List (ℚ × Option Nat)) :=
  match midi2scoreNoTick midi.header midi.tracks with
  | none => none
  | some score =>
    performRoundation c (convertIntoSecondsPerTicks (sortScoreByEventTimes
      (mergeEvents (filterEmptyTracks (filterEventsFromScore score)))))

/-- The chord membership (pitch lists of each chord) a given input
produces. -/
def chordPitchesOf (c : PianoConverter) (midi : MidiData) : Option (List (List (Option Nat))) :=
  (roundedScoreOf c midi).map (fun r => (reduceScoreToChords r).map Prod.fst)

def OpusEvent.isPositiveNoteOn : OpusEvent → Bool
  | .noteOn _ _ _ v => 0 < v
  | _ => false

/-- A zero-track input. -/
def midiEmpty : MidiData := ⟨⟨none, some 480⟩, []⟩

/-- A track whose second note-off finds the key's queue created but
exhausted. -/
def surplusNoteOffTrack : List OpusEvent :=
  [.noteOn 0 0 60 100, .noteOff 0 0 60 64, .noteOff 0 0 60 64]

/-- The two-track scenario of §8: one middle-C note-on/note-off pair 480
ticks apart at 480 ticks per beat, no tempo event. -/
def midiMiddleC : MidiData :=
  ⟨⟨none, some 480⟩, [[.noteOn 0 0 60 100, .noteOff 480 0 60 64], []]⟩

/-- Two notes 20 ms apart: quantum 50 rounds the gap to 0 (one chord),
quantum 10 keeps it at 20 (two chords). -/
def midiCloseNotes : MidiData :=
  ⟨⟨none, some 1000⟩,
   [[.noteOn 0 0 60 100, .noteOn 20 0 64 100, .noteOff 100 0 60 64, .noteOff 0 0 64 64], []]⟩

/-- The default configuration with only `tickLag` changed to `0.1`. -/
def tickLagTenth : PianoConverter := { defaultConverter with tickLag := 1/10 }

/-- Per-key queue invariant of the pairing loop: every pending queue is
sorted by onset (FIFO in onset order) and bounded by the current
position. -/
def QueuesOk (s : PairState) : Prop :=
  ∀ p ∈ s.pending,
    List.Sorted (· ≤ ·) (p.2.map ScoreEvent.begin) ∧
    ∀ ev ∈ p.2, ev.begin ≤ s.ticksSoFar

/-- The pairing state reached after two overlapping middle-C note-ons. -/
def overlapTrack : List OpusEvent := [.noteOn 0 0 60 100, .noteOn 10 0 60 100]

def overlapState : PairState :=
  ⟨10, [(60, [.note 0 0 0 60 100, .note 10 0 0 60 100])], []⟩

/-! ## Theorems -/

theorem fdiv_60_12 : Int.fdiv 60 12 = 5 := by decide

theorem fdiv_61_12 : Int.fdiv 61 12 = 5 := by decide

theorem natToChars_five : natToChars 5 = ['5'] := by
  rw [natToChars]; norm_num [digitToChar]

theorem natToChars_six : natToChars 6 = ['6'] := by
  rw [natToChars]; norm_num [digitToChar]

theorem natToChars_sixty : natToChars 60 = ['6', '0'] := by
  rw [natToChars]; norm_num [natToChars_six, digitToChar]

theorem intToString_five : intToString 5 = "5" := by
  norm_num [intToString, natToString, natToChars_five]

theorem intToString_sixty : intToString 60 = "60" := by
  norm_num [intToString, natToString, natToChars_sixty]

theorem length_name_c : ¬ ("C" : String).length = 2 := by decide

theorem length_name_c_sharp : ("C#" : String).length = 2 := by decide

theorem c_append_n : ("C" : String) ++ "n" = "Cn" := by decide

/-- Claim C1.  With fewer than two tracks `opus2score` does return an
empty `Score`, but `toPiano` does not degrade to a bare BPM header: the
empty merged track becomes a phantom event with an `undefined` pitch, and
`notenum2string` throws a `TypeError` (`none`), so the whole conversion
fails instead of producing output. -/
theorem empty_score_but_toPiano_crashes_c1 :
    opus2score (toMs (midi2opus midiEmpty.header midiEmpty.tracks)) = some ⟨1000, []⟩ ∧
    toPiano defaultConverter midiEmpty = none := by
  constructor
  · norm_num [midi2opus, midiEmpty, tpqOf, toMs, toMsTracks, opus2score]
  · norm_num [toPiano, midi2scoreNoTick, midi2opus, midiEmpty, tpqOf, toMs, toMsTracks,
      opus2score, opus2scoreTracks, filterEventsFromScore, filterEmptyTracks, mergeEvents,
      sortScoreByEventTimes, convertIntoSecondsPerTicks, convertIntoTrack, performRoundation,
      timeQuanta, defaultConverter, obtainCommonDuration, pickDominant, uniqueFirst,
      uniqueFirstAux, cnt, idxOf, reduceScoreToChords, reduceGo, obtainSheetMusic, sheetGo,
      renderPitches,
      round_eq]

/-- Claim C3.  A track holding one positive note-on and two note-offs for
the same key makes the pairer crash (`shift()` on the exhausted queue
returns `undefined`, and the `deltaTime` assignment throws): it emits no
events at all even though the track has exactly one positive note-on, so
the claimed count equality fails. -/
theorem pairer_crash_on_surplus_noteoff_c3 :
    opus2scoreTrack surplusNoteOffTrack = none ∧
    (surplusNoteOffTrack.filter OpusEvent.isPositiveNoteOn).length = 1 := by
  constructor
  · norm_num [opus2scoreTrack, pairRun, pairStep, closeKey, keyOf, getQ, setQ,
      initPairState, surplusNoteOffTrack, OpusEvent.deltaTime, ScoreEvent.begin,
      ScoreEvent.withDelta]
  · norm_num [surplusNoteOffTrack, OpusEvent.isPositiveNoteOn, List.filter]

/-- The §8 middle-C input after rebasing and pairing: a synthetic tempo
reset plus a 1000 ms middle-C note in track 1, only the tempo reset in
track 2. -/
theorem midiMiddleC_paired :
    midi2scoreNoTick midiMiddleC.header midiMiddleC.tracks
      = some ⟨1000, [[.setTempo 0 0 1000000, .note 0 1000 0 60 100],
                     [.setTempo 0 0 1000000]]⟩ := by
  norm_num [midi2scoreNoTick, midi2opus, midiMiddleC, tpqOf, toMs, toMsTracks,
    toMsGo, toMsStep, OpusEvent.deltaTime, OpusEvent.withDelta,
    opus2score, opus2scoreTracks, opus2scoreTrack, pairRun, pairStep, closeKey, keyOf,
    getQ, setQ, initPairState, flushPending, sortKeys, insertKey, ScoreEvent.withDelta,
    ScoreEvent.begin, round_eq]

set_option maxRecDepth 4000 in
/-- The rendered text of the §8 middle-C input. -/
theorem midiMiddleC_toPiano :
    toPiano defaultConverter midiMiddleC = some "BPM: 60\nC5" := by
  rw [toPiano, midiMiddleC_paired]
  norm_num [filterEventsFromScore, filterEmptyTracks, mergeEvents, ScoreEvent.isNote,
    sortScoreByEventTimes, insertByBegin, ScoreEvent.begin, ScoreEvent.pitch?,
    convertIntoSecondsPerTicks, convertIntoTrack, convPairs, performRoundation,
    timeQuanta, defaultConverter, obtainCommonDuration, pickDominant, uniqueFirst,
    uniqueFirstAux, cnt, idxOf, reduceScoreToChords, reduceGo, round_eq]
  norm_num [obtainSheetMusic, sheetGo, renderPitches, notenum2string, names,
    convertTable, inclusionTable, correspondenceTable, defaultConverter,
    fdiv_60_12, intToString_five, intToString_sixty,
    explodeSheetMusic, explodeGo, splitCommaChars, modifyLast, rstripComma,
    finalizeSheetMusic, bpmString, trimString, Char.isWhitespace, takeChars,
    overallImportLimit, String.join]

/-- Counterexample to claim C4: on the §8 two-track middle-C input the
rendered output is `BPM: 60\nC5`, not `BPM: 120\nC,`. -/
theorem middle_c_scenario_c4_counterexample :
    toPiano defaultConverter midiMiddleC = some "BPM: 60\nC5" ∧
    toPiano defaultConverter midiMiddleC ≠ some ("BPM: 120" ++ "\n" ++ "C,") := by
  refine ⟨midiMiddleC_toPiano, ?_⟩
  rw [midiMiddleC_toPiano]
  decide

/-- Claim C4 as amended: the rebaser seeds the tempo at 1000000 µs/beat
(60 BPM), so the 480-tick gap becomes 1000 ms, the quantizer keeps it at
1000 ms, that value is the dominant duration, and the rendered text is
`BPM: 60\nC5` (the octave digit appears because the default octave slot 3
differs from middle C's octave 5; the trailing comma is stripped). -/
theorem middle_c_scenario_c4_amended :
    (toMs (midi2opus midiMiddleC.header midiMiddleC.tracks)).tracks.head?
      = some [.setTempo 0 1000000, .noteOn 0 0 60 100, .noteOff 1000 0 60 64] ∧
    roundedScoreOf defaultConverter midiMiddleC = some [(1000, some 60)] ∧
    (roundedScoreOf defaultConverter midiMiddleC).bind obtainCommonDuration = some 1000 ∧
    toPiano defaultConverter midiMiddleC = some "BPM: 60\nC5" := by
  have h1 : (toMs (midi2opus midiMiddleC.header midiMiddleC.tracks)).tracks.head?
      = some [.setTempo 0 1000000, .noteOn 0 0 60 100, .noteOff 1000 0 60 64] := by
    norm_num [midi2opus, midiMiddleC, tpqOf, toMs, toMsTracks, toMsGo, toMsStep,
      OpusEvent.deltaTime, OpusEvent.withDelta, round_eq]
  have h2 : roundedScoreOf defaultConverter midiMiddleC = some [(1000, some 60)] := by
    rw [roundedScoreOf, midiMiddleC_paired]
    norm_num [filterEventsFromScore, filterEmptyTracks, mergeEvents, ScoreEvent.isNote,
      sortScoreByEventTimes, insertByBegin, ScoreEvent.begin, ScoreEvent.pitch?,
      convertIntoSecondsPerTicks, convertIntoTrack, convPairs, performRoundation,
      timeQuanta, defaultConverter, round_eq]
  refine ⟨h1, h2, ?_, midiMiddleC_toPiano⟩
  rw [h2]
  norm_num [obtainCommonDuration, pickDominant, uniqueFirst, uniqueFirstAux, cnt, idxOf]

/-- Counterexample to claim C5: changing only `tickLag` (0.5 to 0.1) does
change chord membership.  Two notes 20 ms apart fall into one chord under
quantum 50 (the gap rounds to 0) but into two chords under quantum 10. -/
theorem ticklag_changes_chords_c5_counterexample :
    chordPitchesOf defaultConverter midiCloseNotes = some [[some 60, some 64]] ∧
    chordPitchesOf tickLagTenth midiCloseNotes = some [[some 60], [some 64]] ∧
    chordPitchesOf defaultConverter midiCloseNotes
      ≠ chordPitchesOf tickLagTenth midiCloseNotes := by
  have hp : midi2scoreNoTick midiCloseNotes.header midiCloseNotes.tracks
      = some ⟨1000, [[.setTempo 0 0 1000000, .note 0 120 0 60 100, .note 20 100 0 64 100],
                     [.setTempo 0 0 1000000]]⟩ := by
    norm_num [midi2scoreNoTick, midi2opus, midiCloseNotes, tpqOf, toMs, toMsTracks,
      toMsGo, toMsStep, OpusEvent.deltaTime, OpusEvent.withDelta,
      opus2score, opus2scoreTracks, opus2scoreTrack, pairRun, pairStep, closeKey, keyOf,
      getQ, setQ, initPairState, flushPending, sortKeys, insertKey, ScoreEvent.withDelta,
      ScoreEvent.begin, round_eq]
  have h1 : chordPitchesOf defaultConverter midiCloseNotes = some [[some 60, some 64]] := by
    rw [chordPitchesOf, roundedScoreOf, hp]
    norm_num [filterEventsFromScore, filterEmptyTracks, mergeEvents, ScoreEvent.isNote,
      sortScoreByEventTimes, insertByBegin, ScoreEvent.begin, ScoreEvent.pitch?,
      convertIntoSecondsPerTicks, convertIntoTrack, convPairs, performRoundation,
      timeQuanta, defaultConverter, reduceScoreToChords, reduceGo, round_eq]
  have h2 : chordPitchesOf tickLagTenth midiCloseNotes = some [[some 60], [some 64]] := by
    rw [chordPitchesOf, roundedScoreOf, hp]
    norm_num [filterEventsFromScore, filterEmptyTracks, mergeEvents, ScoreEvent.isNote,
      sortScoreByEventTimes, insertByBegin, ScoreEvent.begin, ScoreEvent.pitch?,
      convertIntoSecondsPerTicks, convertIntoTrack, convPairs, performRoundation,
      timeQuanta, tickLagTenth, defaultConverter, reduceScoreToChords, reduceGo, round_eq]
  refine ⟨h1, h2, ?_⟩
  rw [h1, h2]
  decide

/-- A successful record lookup returns an entry of the record. -/
theorem getQ_mem : ∀ (m : List (Nat × List ScoreEvent)) (k : Nat) (q : List ScoreEvent),
    getQ m k = some q → (k, q) ∈ m := by
  intro m
  induction m with
  | nil => intro k q h; simp [getQ] at h
  | cons p rest ih =>
    intro k q h
    by_cases hk : p.1 = k
    · simp only [getQ, if_pos hk, Option.some.injEq] at h
      subst h; subst hk
      exact List.mem_cons_self _ _
    · simp only [getQ, if_neg hk] at h
      exact List.mem_cons_of_mem _ (ih _ _ h)

/-- Every entry of an updated record is the updated entry or an old one. -/
theorem mem_setQ : ∀ (m : List (Nat × List ScoreEvent)) (k : Nat) (v : List ScoreEvent)
    (p : Nat × List ScoreEvent), p ∈ setQ m k v → p = (k, v) ∨ p ∈ m := by
  intro m
  induction m with
  | nil => intro k v p h; simp [setQ] at h
  | cons a rest ih =>
    intro k v p h
    by_cases hk : a.1 = k
    · simp only [setQ, if_pos hk, List.mem_cons] at h
      rcases h with h | h
      · left; rw [h, hk]
      · rcases ih _ _ _ h with h' | h'
        · exact Or.inl h'
        · exact Or.inr (List.mem_cons_of_mem _ h')
    · simp only [setQ, if_neg hk, List.mem_cons] at h
      rcases h with h | h
      · exact Or.inr (h ▸ List.mem_cons_self _ _)
      · rcases ih _ _ _ h with h' | h'
        · exact Or.inl h'
        · exact Or.inr (List.mem_cons_of_mem _ h')

theorem queuesOk_init : QueuesOk initPairState := by
  intro p hp
  simp [initPairState] at hp

/-- Advancing the clock preserves the queue invariant. -/
theorem queuesOk_closeKey (s : PairState) (t : ℚ) (k : Nat) (ht : s.ticksSoFar ≤ t)
    (hs : QueuesOk s) (s' : PairState) (h : closeKey s t k = some s') : QueuesOk s' := by
  unfold closeKey at h
  cases hq : getQ s.pending k with
  | none =>
    rw [hq] at h
    simp only [Option.some.injEq] at h
    subst h
    intro p hp
    exact ⟨(hs p hp).1, fun ev hev => le_trans ((hs p hp).2 ev hev) ht⟩
  | some q =>
    rw [hq] at h
    cases q with
    | nil => simp at h
    | cons ev rest =>
      simp only [Option.some.injEq] at h
      subst h
      intro p hp
      rcases mem_setQ _ _ _ _ hp with hp' | hp'
      · have hold := hs _ (getQ_mem _ _ _ hq)
        subst hp'
        refine ⟨hold.1.of_cons, fun e he => le_trans (hold.2 e (List.mem_cons_of_mem _ he)) ht⟩
      · exact ⟨(hs p hp').1, fun e he => le_trans ((hs p hp').2 e he) ht⟩

/-- One pairing step preserves the queue invariant when the event's delta
is nonnegative. -/
theorem queuesOk_pairStep (s : PairState) (e : OpusEvent) (hd : 0 ≤ e.deltaTime)
    (hs : QueuesOk s) (s' : PairState) (h : pairStep s e = some s') : QueuesOk s' := by
  have ht : s.ticksSoFar ≤ s.ticksSoFar + e.deltaTime := le_add_of_nonneg_right hd
  cases e with
  | noteOff d cha pitch vel =>
    exact queuesOk_closeKey s _ _ ht hs s' h
  | setTempo d mpb =>
    simp only [pairStep, Option.some.injEq] at h
    subst h
    intro p hp
    exact ⟨(hs p hp).1, fun ev hev => le_trans ((hs p hp).2 ev hev) ht⟩
  | other d =>
    simp only [pairStep, Option.some.injEq] at h
    subst h
    intro p hp
    exact ⟨(hs p hp).1, fun ev hev => le_trans ((hs p hp).2 ev hev) ht⟩
  | noteOn d cha pitch vel =>
    by_cases hv : vel = 0
    · simp only [pairStep, if_pos hv] at h
      exact queuesOk_closeKey s _ _ ht hs s' h
    · simp only [pairStep, if_neg hv, Option.some.injEq] at h
      subst h
      set t := s.ticksSoFar + (OpusEvent.noteOn d cha pitch vel).deltaTime with htdef
      intro p hp
      simp only at hp
      cases hq : getQ s.pending (keyOf cha pitch) with
      | some q =>
        rw [hq] at hp
        rcases mem_setQ _ _ _ _ hp with hp' | hp'
        · have hold := hs _ (getQ_mem _ _ _ hq)
          subst hp'
          constructor
          · simp only [List.map_append, List.map_cons, List.map_nil]
            rw [List.Sorted, List.pairwise_append]
            refine ⟨hold.1, List.sorted_singleton _, ?_⟩
            intro x hx y hy
            simp only [List.mem_singleton] at hy
            rcases List.mem_map.mp hx with ⟨ev, hev, hevx⟩
            subst hy
            calc x = ev.begin := hevx.symm
              _ ≤ s.ticksSoFar := hold.2 ev hev
              _ ≤ t := ht
          · intro ev hev
            rcases List.mem_append.mp hev with hev' | hev'
            · exact le_trans (hold.2 ev hev') ht
            · simp only [List.mem_singleton] at hev'
              subst hev'
              exact le_refl _
        · exact ⟨(hs p hp').1, fun ev hev => le_trans ((hs p hp').2 ev hev) ht⟩
      | none =>
        rw [hq] at hp
        rcases List.mem_append.mp hp with hp' | hp'
        · exact ⟨(hs p hp').1, fun ev hev => le_trans ((hs p hp').2 ev hev) ht⟩
        · simp only [List.mem_singleton] at hp'
          subst hp'
          exact ⟨List.sorted_singleton _, by
            intro ev hev
            simp only [List.mem_singleton] at hev
            subst hev
            exact le_refl _⟩

/-- The queue invariant holds in every state the pairing loop reaches. -/
theorem queuesOk_pairRun : ∀ (track : List OpusEvent) (s : PairState),
    (∀ e ∈ track, 0 ≤ e.deltaTime) → QueuesOk s →
    ∀ s', pairRun s track = some s' → QueuesOk s' := by
  intro track
  induction track with
  | nil =>
    intro s _ hs s' h
    simp only [pairRun, Option.some.injEq] at h
    subst h; exact hs
  | cons e rest ih =>
    intro s hnn hs s' h
    simp only [pairRun] at h
    cases hstep : pairStep s e with
    | none => rw [hstep] at h; simp at h
    | some s1 =>
      rw [hstep] at h
      exact ih s1 (fun e' he' => hnn e' (List.mem_cons_of_mem _ he'))
        (queuesOk_pairStep s e (hnn e (List.mem_cons_self _ _)) hs s1 hstep) s' h

/-- Claim C2.  In any state the pairing loop reaches, a note-off pops the
head of its key's pending queue — the oldest pending note-on, whose onset
is minimal among all pending notes for that key — and emits it with
duration equal to the note-off's absolute position minus that onset. -/
theorem fifo_pairing_c2 (track : List OpusEvent) (hnn : ∀ e ∈ track, 0 ≤ e.deltaTime)
    (s : PairState) (hrun : pairRun initPairState track = some s)
    (d : ℚ) (cha pitch vel : Nat)
    (e0 : ScoreEvent) (rest : List ScoreEvent)
    (hq : getQ s.pending (keyOf cha pitch) = some (e0 :: rest)) :
    pairStep s (.noteOff d cha pitch vel)
      = some ⟨s.ticksSoFar + d, setQ s.pending (keyOf cha pitch) rest,
              s.out ++ [e0.withDelta (s.ticksSoFar + d - e0.begin)]⟩ ∧
    ∀ ev ∈ e0 :: rest, e0.begin ≤ ev.begin := by
  have hok := queuesOk_pairRun track initPairState hnn queuesOk_init s hrun
  constructor
  · simp only [pairStep, OpusEvent.deltaTime, closeKey, hq]
  · have hsorted := (hok _ (getQ_mem _ _ _ hq)).1
    simp only [List.map_cons, List.sorted_cons] at hsorted
    intro ev hev
    rcases List.mem_cons.mp hev with hev' | hev'
    · subst hev'; exact le_refl _
    · exact hsorted.1 _ (List.mem_map_of_mem _ hev')

theorem fifo_pairing_c2_witness :
    (∀ e ∈ overlapTrack, 0 ≤ e.deltaTime) ∧
    pairRun initPairState overlapTrack = some overlapState ∧
    getQ overlapState.pending (keyOf 0 60)
      = some (ScoreEvent.note 0 0 0 60 100 :: [ScoreEvent.note 10 0 0 60 100]) ∧
    (pairStep overlapState (.noteOff 5 0 60 64)
       = some ⟨overlapState.ticksSoFar + 5,
               setQ overlapState.pending (keyOf 0 60) [ScoreEvent.note 10 0 0 60 100],
               overlapState.out ++ [(ScoreEvent.note 0 0 0 60 100).withDelta
                 (overlapState.ticksSoFar + 5 - (ScoreEvent.note 0 0 0 60 100).begin)]⟩ ∧
     ∀ ev ∈ ScoreEvent.note 0 0 0 60 100 :: [ScoreEvent.note 10 0 0 60 100],
       (ScoreEvent.note 0 0 0 60 100).begin ≤ ev.begin) := by
  have hnn : ∀ e ∈ overlapTrack, 0 ≤ e.deltaTime := by
    intro e he
    simp only [overlapTrack, List.mem_cons, List.mem_singleton] at he
    rcases he with rfl | rfl | h
    · norm_num [OpusEvent.deltaTime]
    · norm_num [OpusEvent.deltaTime]
    · simp at h
  have hrun : pairRun initPairState overlapTrack = some overlapState := by
    norm_num [overlapTrack, overlapState, pairRun, pairStep, initPairState, keyOf,
      getQ, setQ, OpusEvent.deltaTime]
  have hq : getQ overlapState.pending (keyOf 0 60)
      = some (ScoreEvent.note 0 0 0 60 100 :: [ScoreEvent.note 10 0 0 60 100]) := by
    norm_num [overlapState, getQ, keyOf]
  exact ⟨hnn, hrun, hq,
    fifo_pairing_c2 overlapTrack hnn overlapState hrun 5 0 60 64 _ _ hq⟩

/-- Chord membership only depends on the pitch components and on which
durations are zero. -/
theorem reduceGo_congr :
    ∀ (l1 l2 : List (ℚ × Option Nat)) (chord : List (Option Nat)),
      List.Forall₂ (fun p q => p.2 = q.2 ∧ (p.1 = 0 ↔ q.1 = 0)) l1 l2 →
      (reduceGo chord l1).map Prod.fst = (reduceGo chord l2).map Prod.fst := by
  intro l1
  induction l1 with
  | nil => intro l2 chord h; cases h; rfl
  | cons a t1 ih =>
    intro l2 chord h
    cases h with
    | cons hab htail =>
      obtain ⟨d1, p1⟩ := a
      rename_i b t2
      obtain ⟨d2, p2⟩ := b
      obtain ⟨hp, hz⟩ := hab
      simp only at hp
      by_cases hd : d1 = 0
      · have hd2 : d2 = 0 := hz.mp hd
        simp only [reduceGo, hd, hd2, if_pos rfl, hp]
        exact ih _ _ htail
      · have hd2 : ¬ d2 = 0 := fun h2 => hd (hz.mpr h2)
        simp only [reduceGo, if_neg hd, if_neg hd2, List.map_cons, hp]
        exact congrArg _ (ih _ _ htail)

/-- Pointwise zero-agreement plus equal pitch projections give the
combined relation `reduceGo_congr` needs. -/
theorem forall2_conj_of_snd_eq :
    ∀ l1 l2 : List (ℚ × Option Nat), l1.map Prod.snd = l2.map Prod.snd →
      List.Forall₂ (fun p q => p.1 = 0 ↔ q.1 = 0) l1 l2 →
      List.Forall₂ (fun p q => p.2 = q.2 ∧ (p.1 = 0 ↔ q.1 = 0)) l1 l2 := by
  intro l1
  induction l1 with
  | nil => intro l2 _ h; cases h; exact .nil
  | cons a t ih =>
    intro l2 hsnd h
    cases h with
    | cons hab htail =>
      simp only [List.map_cons, List.cons.injEq] at hsnd
      exact .cons ⟨hsnd.1, hab⟩ (ih _ hsnd.2 htail)

/-- Claim C5 as amended: with only `tickLag` changed, the pitches entering
chord reduction are identical (pairing is unaffected), and chord
membership is identical provided every duration rounds to zero under one
quantum iff it does under the other.  (Without that proviso chord
membership can change — see the counterexample.) -/
theorem ticklag_pairing_and_chords_c5_amended (c1 c2 : PianoConverter)
    (_hconf : c1.lineLengthLim = c2.lineLengthLim ∧ c1.linesLimit = c2.linesLimit ∧
             c1.octaveTranspose = c2.octaveTranspose ∧ c1.floatPrecision = c2.floatPrecision ∧
             c1.octaveKeys = c2.octaveKeys ∧ c1.highestOctave = c2.highestOctave ∧
             c1.endOfLineChar = c2.endOfLineChar)
    (score : CScore) (l1 l2 : List (ℚ × Option Nat))
    (h1 : performRoundation c1 score = some l1) (h2 : performRoundation c2 score = some l2)
    (hzero : List.Forall₂ (fun p q => p.1 = 0 ↔ q.1 = 0) l1 l2) :
    l1.map Prod.snd = l2.map Prod.snd ∧
    (reduceScoreToChords l1).map Prod.fst = (reduceScoreToChords l2).map Prod.fst := by
  have hsnd : l1.map Prod.snd = l2.map Prod.snd := by
    unfold performRoundation at h1 h2
    cases hs : score.tracks with
    | nil => rw [hs] at h1; exact absurd h1 (by simp)
    | cons t ts =>
      rw [hs] at h1 h2
      simp only [Option.some.injEq] at h1 h2
      subst h1; subst h2
      simp [List.map_map, Function.comp]
  refine ⟨hsnd, ?_⟩
  simp only [reduceScoreToChords]
  exact reduceGo_congr l1 l2 [] (forall2_conj_of_snd_eq l1 l2 hsnd hzero)

theorem ticklag_pairing_and_chords_c5_amended_witness :
    (performRoundation defaultConverter ⟨1000, [[⟨some 0, 30, some 60⟩]]⟩
        = some [((50 : ℚ), some 60)] ∧
     performRoundation tickLagTenth ⟨1000, [[⟨some 0, 30, some 60⟩]]⟩
        = some [((30 : ℚ), some 60)] ∧
     List.Forall₂ (fun (p q : ℚ × Option Nat) => p.1 = 0 ↔ q.1 = 0)
        [((50 : ℚ), some 60)] [((30 : ℚ), some 60)]) ∧
    ([((50 : ℚ), some 60)].map Prod.snd = [((30 : ℚ), some 60)].map Prod.snd ∧
     (reduceScoreToChords [((50 : ℚ), some 60)]).map Prod.fst
        = (reduceScoreToChords [((30 : ℚ), some 60)]).map Prod.fst) := by
  have h1 : performRoundation defaultConverter ⟨1000, [[⟨some 0, 30, some 60⟩]]⟩
      = some [((50 : ℚ), some 60)] := by
    norm_num [performRoundation, timeQuanta, defaultConverter, round_eq]
  have h2 : performRoundation tickLagTenth ⟨1000, [[⟨some 0, 30, some 60⟩]]⟩
      = some [((30 : ℚ), some 60)] := by
    norm_num [performRoundation, timeQuanta, tickLagTenth, defaultConverter, round_eq]
  have hz : List.Forall₂ (fun (p q : ℚ × Option Nat) => p.1 = 0 ↔ q.1 = 0)
      [((50 : ℚ), some 60)] [((30 : ℚ), some 60)] := by
    norm_num [List.forall₂_cons]
  exact ⟨⟨h1, h2, hz⟩,
    ticklag_pairing_and_chords_c5_amended defaultConverter tickLagTenth
      ⟨rfl, rfl, rfl, rfl, rfl, rfl, rfl⟩ ⟨1000, [[⟨some 0, 30, some 60⟩]]⟩
      _ _ h1 h2 hz⟩

/-- Membership in the deduplicated value list. -/
theorem mem_uniqueFirstAux :
    ∀ (l seen : List ℚ) (a : ℚ), a ∈ uniqueFirstAux seen l ↔ (a ∈ l ∧ a ∉ seen) := by
  intro l
  induction l with
  | nil => intro seen a; simp [uniqueFirstAux]
  | cons b t ih =>
    intro seen a
    by_cases hb : b ∈ seen
    · simp only [uniqueFirstAux, if_pos hb, ih, List.mem_cons]
      constructor
      · rintro ⟨ha, hs⟩; exact ⟨Or.inr ha, hs⟩
      · rintro ⟨ha | ha, hs⟩
        · exact absurd (ha ▸ hb) hs
        · exact ⟨ha, hs⟩
    · simp only [uniqueFirstAux, if_neg hb, List.mem_cons, ih]
      constructor
      · rintro (rfl | ⟨ha, hs⟩)
        · exact ⟨Or.inl rfl, hb⟩
        · exact ⟨Or.inr ha, fun h => hs (Or.inr h)⟩
      · rintro ⟨rfl | ha, hs⟩
        · exact Or.inl rfl
        · by_cases hab : a = b
          · exact Or.inl hab
          · exact Or.inr ⟨ha, fun hmem => hmem.elim hab hs⟩

theorem mem_uniqueFirst (l : List ℚ) (a : ℚ) : a ∈ uniqueFirst l ↔ a ∈ l := by
  simp [uniqueFirst, mem_uniqueFirstAux]

/-- `indexOf` succeeds on members. -/
theorem idxOf_of_mem : ∀ (l : List Nat) (v : Nat), v ∈ l → ∃ i, idxOf v l = some i := by
  intro l
  induction l with
  | nil => intro v h; simp at h
  | cons a t ih =>
    intro v h
    by_cases ha : a = v
    · exact ⟨0, by simp [idxOf, ha]⟩
    · rcases List.mem_cons.mp h with h' | h'
      · exact absurd h'.symm ha
      · obtain ⟨i, hi⟩ := ih v h'
        exact ⟨i + 1, by simp [idxOf, ha, hi]⟩

/-- `indexOf` returns the first index of the value. -/
theorem idxOf_spec : ∀ (l : List Nat) (v : Nat) (i : Nat), idxOf v l = some i →
    l.get? i = some v ∧ ∀ j, j < i → l.get? j ≠ some v := by
  intro l
  induction l with
  | nil => intro v i h; simp [idxOf] at h
  | cons a t ih =>
    intro v i h
    by_cases ha : a = v
    · simp only [idxOf, if_pos ha, Option.some.injEq] at h
      subst h
      exact ⟨by simp [ha], fun j hj => absurd hj (Nat.not_lt_zero j)⟩
    · simp only [idxOf, if_neg ha, Option.map_eq_some'] at h
      obtain ⟨i', hi', rfl⟩ := h
      obtain ⟨hget, hfirst⟩ := ih v i' hi'
      refine ⟨by simpa using hget, ?_⟩
      intro j hj
      cases j with
      | zero => simpa using fun h' => ha h'
      | succ j' =>
        have : j' < i' := Nat.lt_of_succ_lt_succ hj
        simpa using hfirst j' this

theorem init_le_foldl_max : ∀ (cs : List Nat) (c0 : Nat), c0 ≤ cs.foldl max c0 := by
  intro cs
  induction cs with
  | nil => intro c0; exact le_refl _
  | cons c cs' ih =>
    intro c0
    exact le_trans (le_max_left c0 c) (ih (max c0 c))

theorem mem_le_foldl_max : ∀ (cs : List Nat) (c0 x : Nat), x ∈ cs → x ≤ cs.foldl max c0 := by
  intro cs
  induction cs with
  | nil => intro c0 x h; simp at h
  | cons c cs' ih =>
    intro c0 x h
    rcases List.mem_cons.mp h with rfl | h'
    · exact le_trans (le_max_right c0 x) (init_le_foldl_max cs' (max c0 x))
    · exact ih (max c0 c) x h'

theorem foldl_max_mem : ∀ (cs : List Nat) (c0 : Nat),
    cs.foldl max c0 = c0 ∨ cs.foldl max c0 ∈ cs := by
  intro cs
  induction cs with
  | nil => intro c0; exact Or.inl rfl
  | cons c cs' ih =>
    intro c0
    rcases ih (max c0 c) with h | h
    · rcases max_choice c0 c with hm | hm
      · exact Or.inl (by rw [List.foldl_cons, h, hm])
      · exact Or.inr (by rw [List.foldl_cons, h, hm]; exact List.mem_cons_self _ _)
    · exact Or.inr (List.mem_cons_of_mem _ h)

/-- The selection made by `pickDominant` over any value list: the result
is at some index `i` of the list, its count is maximal among the listed
values, and every value at an earlier index has a strictly smaller count. -/
theorem pickDominant_spec (durs uniq : List ℚ) (hne : uniq ≠ []) :
    ∃ r i, pickDominant uniq (uniq.map (fun d => cnt durs d)) = some r ∧
      uniq.get? i = some r ∧
      (∀ d ∈ uniq, cnt durs d ≤ cnt durs r) ∧
      (∀ j dj, j < i → uniq.get? j = some dj → cnt durs dj < cnt durs r) := by
  cases uniq with
  | nil => exact absurd rfl hne
  | cons u0 urest =>
    simp only [pickDominant, List.map_cons]
    have hmax_mem :
        (urest.map (fun d => cnt durs d)).foldl max (cnt durs u0)
          ∈ cnt durs u0 :: urest.map (fun d => cnt durs d) := by
      rcases foldl_max_mem (urest.map (fun d => cnt durs d)) (cnt durs u0) with h' | h'
      · rw [h']; exact List.mem_cons_self _ _
      · exact List.mem_cons_of_mem _ h'
    obtain ⟨i, hi⟩ := idxOf_of_mem _ _ hmax_mem
    obtain ⟨hget, hfirst⟩ := idxOf_spec _ _ _ hi
    rw [hi]
    have hmap : cnt durs u0 :: urest.map (fun d => cnt durs d)
        = (u0 :: urest).map (fun d => cnt durs d) := by rw [List.map_cons]
    rw [hmap, List.get?_map] at hget
    cases hu : (u0 :: urest).get? i with
    | none => rw [hu] at hget; simp at hget
    | some r =>
      rw [hu] at hget
      simp only [Option.map_some', Option.some.injEq] at hget
      have hle : ∀ d ∈ u0 :: urest, cnt durs d ≤ cnt durs r := by
        intro d hd
        rw [hget]
        rcases List.mem_cons.mp hd with rfl | hd'
        · exact init_le_foldl_max _ _
        · exact mem_le_foldl_max _ _ _ (List.mem_map_of_mem _ hd')
      refine ⟨r, i, hu, hu, hle, ?_⟩
      intro j dj hj hgetj
      have hcj : ((u0 :: urest).map (fun d => cnt durs d)).get? j = some (cnt durs dj) := by
        rw [List.get?_map, hgetj]; rfl
      have hne' : cnt durs dj ≠ cnt durs r := by
        intro heq
        refine hfirst j hj ?_
        rw [hmap, hcj, heq, hget]
      exact lt_of_le_of_ne (hle dj (List.get?_mem hgetj)) hne'

/-- Claim C6.  With at least one nonzero duration, `obtainCommonDuration`
returns a value `r` that occurs among the nonzero durations (so it is
never 0), whose occurrence count is maximal, and which is the first value
— in order of first appearance over the discovered value set — achieving
that count: every value discovered earlier occurs strictly fewer times. -/
theorem dominant_duration_c6 (score : List (ℚ × Option Nat))
    (h : ∃ p ∈ score, ¬ p.1 = 0) :
    ∃ r i,
      obtainCommonDuration score = some r ∧
      ¬ r = 0 ∧
      r ∈ (score.map Prod.fst).filter (fun d => ¬ d = 0) ∧
      (∀ d ∈ (score.map Prod.fst).filter (fun d => ¬ d = 0),
         cnt ((score.map Prod.fst).filter (fun d => ¬ d = 0)) d
           ≤ cnt ((score.map Prod.fst).filter (fun d => ¬ d = 0)) r) ∧
      (uniqueFirst ((score.map Prod.fst).filter (fun d => ¬ d = 0))).get? i = some r ∧
      (∀ j dj, j < i →
         (uniqueFirst ((score.map Prod.fst).filter (fun d => ¬ d = 0))).get? j = some dj →
         cnt ((score.map Prod.fst).filter (fun d => ¬ d = 0)) dj
           < cnt ((score.map Prod.fst).filter (fun d => ¬ d = 0)) r) := by
  obtain ⟨p, hp, hpz⟩ := h
  have hd0 : p.1 ∈ (score.map Prod.fst).filter (fun d => ¬ d = 0) :=
    List.mem_filter.mpr ⟨List.mem_map_of_mem _ hp, by simpa using hpz⟩
  have hne : uniqueFirst ((score.map Prod.fst).filter (fun d => ¬ d = 0)) ≠ [] :=
    List.ne_nil_of_mem ((mem_uniqueFirst _ _).mpr hd0)
  obtain ⟨r, i, hpick, hget, hle, hfirst⟩ :=
    pickDominant_spec ((score.map Prod.fst).filter (fun d => ¬ d = 0))
      (uniqueFirst ((score.map Prod.fst).filter (fun d => ¬ d = 0))) hne
  have hrdurs : r ∈ (score.map Prod.fst).filter (fun d => ¬ d = 0) :=
    (mem_uniqueFirst _ _).mp (List.get?_mem hget)
  have hrnz : ¬ r = 0 := by
    have := List.mem_filter.mp hrdurs
    simpa using this.2
  refine ⟨r, i, hpick, hrnz, hrdurs, ?_, hget, hfirst⟩
  intro d hd
  exact hle d ((mem_uniqueFirst _ _).mpr hd)

theorem dominant_duration_c6_witness :
    (∃ p ∈ [((0 : ℚ), some 1), ((50 : ℚ), some 2), ((100 : ℚ), some 3),
            ((50 : ℚ), some 4), ((100 : ℚ), some 5)], ¬ p.1 = 0) ∧
    (∃ r i,
      obtainCommonDuration [((0 : ℚ), some 1), ((50 : ℚ), some 2), ((100 : ℚ), some 3),
            ((50 : ℚ), some 4), ((100 : ℚ), some 5)] = some r ∧
      ¬ r = 0 ∧
      r ∈ (([((0 : ℚ), some 1), ((50 : ℚ), some 2), ((100 : ℚ), some 3),
            ((50 : ℚ), some 4), ((100 : ℚ), some 5)].map Prod.fst).filter (fun d => ¬ d = 0)) ∧
      (∀ d ∈ (([((0 : ℚ), some 1), ((50 : ℚ), some 2), ((100 : ℚ), some 3),
            ((50 : ℚ), some 4), ((100 : ℚ), some 5)].map Prod.fst).filter (fun d => ¬ d = 0)),
         cnt (([((0 : ℚ), some 1), ((50 : ℚ), some 2), ((100 : ℚ), some 3),
            ((50 : ℚ), some 4), ((100 : ℚ), some 5)].map Prod.fst).filter (fun d => ¬ d = 0)) d
           ≤ cnt (([((0 : ℚ), some 1), ((50 : ℚ), some 2), ((100 : ℚ), some 3),
            ((50 : ℚ), some 4), ((100 : ℚ), some 5)].map Prod.fst).filter (fun d => ¬ d = 0)) r) ∧
      (uniqueFirst (([((0 : ℚ), some 1), ((50 : ℚ), some 2), ((100 : ℚ), some 3),
            ((50 : ℚ), some 4), ((100 : ℚ), some 5)].map Prod.fst).filter (fun d => ¬ d = 0))).get? i
        = some r ∧
      (∀ j dj, j < i →
         (uniqueFirst (([((0 : ℚ), some 1), ((50 : ℚ), some 2), ((100 : ℚ), some 3),
            ((50 : ℚ), some 4), ((100 : ℚ), some 5)].map Prod.fst).filter (fun d => ¬ d = 0))).get? j
           = some dj →
         cnt (([((0 : ℚ), some 1), ((50 : ℚ), some 2), ((100 : ℚ), some 3),
            ((50 : ℚ), some 4), ((100 : ℚ), some 5)].map Prod.fst).filter (fun d => ¬ d = 0)) dj
           < cnt (([((0 : ℚ), some 1), ((50 : ℚ), some 2), ((100 : ℚ), some 3),
            ((50 : ℚ), some 4), ((100 : ℚ), some 5)].map Prod.fst).filter (fun d => ¬ d = 0)) r)) :=
  ⟨⟨((50 : ℚ), some 2), by norm_num⟩,
   dominant_duration_c6 _ ⟨((50 : ℚ), some 2), by norm_num⟩⟩

/-- Claim C8.  A pitch whose shifted octave falls outside
`[1, highestOctave]` renders as the empty string, and the accidental and
octave state pass through unchanged. -/
theorem out_of_range_pitch_dropped_c8 (c : PianoConverter) (num : Int)
    (accidentals : List Bool) (octaves : List Int)
    (h : Int.fdiv (num + (c.octaveKeys : Int) * c.octaveTranspose) c.octaveKeys < 1 ∨
         Int.fdiv (num + (c.octaveKeys : Int) * c.octaveTranspose) c.octaveKeys
           > (c.highestOctave : Int)) :
    notenum2string c num accidentals octaves = some ("", accidentals, octaves) := by
  simp only [notenum2string]
  rw [if_pos h]

theorem out_of_range_pitch_dropped_c8_witness :
    (Int.fdiv ((200 : Int) + (defaultConverter.octaveKeys : Int) * defaultConverter.octaveTranspose)
        defaultConverter.octaveKeys < 1 ∨
     Int.fdiv ((200 : Int) + (defaultConverter.octaveKeys : Int) * defaultConverter.octaveTranspose)
        defaultConverter.octaveKeys > (defaultConverter.highestOctave : Int)) ∧
    notenum2string defaultConverter 200 [false] [3] = some ("", [false], [3]) :=
  ⟨by decide, out_of_range_pitch_dropped_c8 defaultConverter 200 [false] [3] (by decide)⟩

/-- Claim C10.  Every duration the quantizer produces is an integer
multiple of the quantum `100 * tickLag`. -/
theorem quantized_durations_are_multiples_c10 (c : PianoConverter) (score : CScore)
    (l : List (ℚ × Option Nat)) (h : performRoundation c score = some l)
    (p : ℚ × Option Nat) (hp : p ∈ l) :
    ∃ n : ℤ, p.1 = (n : ℚ) * (100 * c.tickLag) := by
  unfold performRoundation at h
  cases hs : score.tracks with
  | nil => rw [hs] at h; exact absurd h (by simp)
  | cons t ts =>
    rw [hs] at h
    simp only [Option.some.injEq] at h
    subst h
    rcases List.mem_map.mp hp with ⟨e, _, he⟩
    exact ⟨round (e.deltaTime / timeQuanta c), by rw [← he, timeQuanta]⟩

/-- Claim C9.  Rendering pitch 61 (C#) and then pitch 60 (C) in the same
octave (the C#-slot's remembered octave is the note's octave 5, and no C
natural intervenes) prints `C#` — setting the C-sharp accidental flag —
and then `Cn` with the natural-cancel marker and the flag cleared, not a
bare `C`. -/
theorem natural_cancel_c9 (b0 b1 b2 b3 b4 b5 b6 : Bool)
    (o0 o2 o3 o4 o5 o6 o7 o8 o9 o10 o11 : Int) :
    notenum2string defaultConverter 61 [b0, b1, b2, b3, b4, b5, b6]
        [o0, 5, o2, o3, o4, o5, o6, o7, o8, o9, o10, o11]
      = some ("C#", [true, b1, b2, b3, b4, b5, b6],
              [5, 5, o2, o3, o4, o5, o6, o7, o8, o9, o10, o11]) ∧
    notenum2string defaultConverter 60 [true, b1, b2, b3, b4, b5, b6]
        [5, 5, o2, o3, o4, o5, o6, o7, o8, o9, o10, o11]
      = some ("Cn", [false, b1, b2, b3, b4, b5, b6],
              [5, 5, o2, o3, o4, o5, o6, o7, o8, o9, o10, o11]) := by
  constructor <;>
    norm_num [notenum2string, names, convertTable, inclusionTable, correspondenceTable,
      defaultConverter, fdiv_60_12, fdiv_61_12, List.getD, List.set,
      length_name_c, length_name_c_sharp, c_append_n]

/-- `withDelta` does not change the event type. -/
theorem withDelta_isSetTempo (e : OpusEvent) (d : ℚ) :
    (e.withDelta d).isSetTempo = e.isSetTempo := by
  cases e <;> rfl

/-- No event emitted by the rebaser's event loop is a tempo change. -/
theorem toMsGo_filter_setTempo (tpq : ℚ) :
    ∀ (track : List OpusEvent) (s : MsState),
      (toMsGo tpq s track).1.filter (fun e => e.isSetTempo) = [] := by
  intro track
  induction track with
  | nil => intro s; rfl
  | cons e rest ih =>
    intro s
    cases e with
    | setTempo d mpb => simpa [toMsGo, toMsStep] using ih _
    | noteOn d cha pitch vel =>
      simpa [toMsGo, toMsStep, OpusEvent.withDelta, OpusEvent.isSetTempo] using ih _
    | noteOff d cha pitch vel =>
      simpa [toMsGo, toMsStep, OpusEvent.withDelta, OpusEvent.isSetTempo] using ih _
    | other d =>
      simpa [toMsGo, toMsStep, OpusEvent.withDelta, OpusEvent.isSetTempo] using ih _

/-- Every track the rebaser outputs is the synthetic tempo reset followed
by tempo-free events. -/
theorem mem_toMsTracks (tpq : ℚ) :
    ∀ (tracks : List (List OpusEvent)) (mpt : ℚ) (tr : List OpusEvent),
      tr ∈ toMsTracks tpq mpt tracks →
      ∃ l, tr = .setTempo 0 1000000 :: l ∧ l.filter (fun e => e.isSetTempo) = [] := by
  intro tracks
  induction tracks with
  | nil => intro mpt tr htr; simp [toMsTracks] at htr
  | cons t rest ih =>
    intro mpt tr htr
    simp only [toMsTracks, List.mem_cons] at htr
    rcases htr with h | h
    · exact ⟨_, h, toMsGo_filter_setTempo tpq t _⟩
    · exact ih _ _ h

/-- Claim C7.  Every output track of the Time Rebaser starts with the
synthetic tempo reset and contains no further tempo event; a source tempo
change contributes no output event, but its own delta still advances the
accumulated millisecond position (with `previousMillisecSoFar` untouched),
so the time it covers is folded into the delta of the next emitted
non-tempo event. -/
theorem tempo_events_consumed_c7 (o : Opus) (tr : List OpusEvent)
    (h : tr ∈ (toMs o).tracks) (tpq : ℚ) (s : MsState) (d mpb d2 : ℚ)
    (erest : List OpusEvent) :
    tr.head? = some (.setTempo 0 1000000) ∧
    tr.tail.filter (fun e => e.isSetTempo) = [] ∧
    toMsGo tpq s (.setTempo d mpb :: erest)
      = toMsGo tpq ⟨mpb / (1000 * tpq), s.msSoFar + s.msPerTick * d, s.prevMs⟩ erest ∧
    (toMsGo tpq s [.setTempo d mpb, .other d2]).1
      = [.other ((round (s.msSoFar + s.msPerTick * d + mpb / (1000 * tpq) * d2
                         - s.prevMs) : ℤ) : ℚ)] := by
  obtain ⟨l, rfl, hl⟩ := mem_toMsTracks o.tpq o.tracks _ tr h
  exact ⟨rfl, hl, rfl, rfl⟩

theorem tempo_events_consumed_c7_witness :
    ([OpusEvent.setTempo 0 1000000, .other 14]
        ∈ (toMs ⟨480, [[.setTempo 5 500000, .other 3]]⟩).tracks) ∧
    ([OpusEvent.setTempo 0 1000000, .other 14].head? = some (.setTempo 0 1000000) ∧
     [OpusEvent.setTempo 0 1000000, .other 14].tail.filter (fun e => e.isSetTempo) = [] ∧
     toMsGo 480 ⟨1, 0, 0⟩ (.setTempo 2 480000 :: [])
       = toMsGo 480 ⟨480000 / (1000 * 480), 0 + 1 * 2, 0⟩ [] ∧
     (toMsGo 480 ⟨1, 0, 0⟩ [.setTempo 2 480000, .other 4]).1
       = [.other ((round ((0 : ℚ) + 1 * 2 + 480000 / (1000 * 480) * 4 - 0) : ℤ) : ℚ)]) :=
  have hmem : [OpusEvent.setTempo 0 1000000, .other 14]
      ∈ (toMs ⟨480, [[.setTempo 5 500000, .other 3]]⟩).tracks := by
    norm_num [toMs, toMsTracks, toMsGo, toMsStep, OpusEvent.deltaTime,
      OpusEvent.withDelta, round_eq]
  ⟨hmem, tempo_events_consumed_c7 ⟨480, [[.setTempo 5 500000, .other 3]]⟩
    _ hmem 480 ⟨1, 0, 0⟩ 2 480000 4 []⟩

theorem quantized_durations_are_multiples_c10_witness :
    performRoundation defaultConverter ⟨1000, [[⟨some 0, 30, some 60⟩]]⟩
      = some [((50 : ℚ), some 60)] ∧
    ((50 : ℚ), some 60) ∈ [((50 : ℚ), some 60)] ∧
    ∃ n : ℤ, ((50 : ℚ), some 60).1 = (n : ℚ) * (100 * defaultConverter.tickLag) := by
  have h : performRoundation defaultConverter ⟨1000, [[⟨some 0, 30, some 60⟩]]⟩
      = some [((50 : ℚ), some 60)] := by
    norm_num [performRoundation, timeQuanta, defaultConverter, round_eq]
  exact ⟨h, by simp,
    quantized_durations_are_multiples_c10 defaultConverter ⟨1000, [[⟨some 0, 30, some 60⟩]]⟩
      _ h _ (by simp)⟩

end PianoTs
